import Mathlib

/-!
Verification of the cronjob image-sync controller
(`controllers/deployment_controller.go`).

The controller watches Deployments (primary workloads), finds related
CronJobs (secondary templates) in the same namespace, syncs the container
images of each CronJob's job template from the Deployment, persists mutated
CronJobs, and deletes Jobs (derived executions) owned by an updated CronJob.

The embedding below translates the Go source into Lean:
* pure helpers (`imageByName`, the image-sync loop, the matcher rules,
  `isOwnedByCronJob`) become Lean functions;
* the stateful reconcile becomes an explicit state-passing function that
  also produces a trace of store writes, counter increments and events;
* fallible store calls (`Update`, `Delete`, `DeleteAllOf`) are driven by an
  environment of success oracles.

The store is modelled as the contents of one namespace (the Deployment's):
all `List` calls in the source are scoped to that namespace, so namespace
filtering is the identity here.
-/

namespace CronJobController

/-- A container of a pod template (`corev1.Container`): the source reads
`Name` and `Image` and writes only `Image`.  `rest` stands for all the other
container fields (command, args, env, resources, ...), which the code never
touches. -/
structure Container where
  name : String
  image : String
  rest : String
deriving DecidableEq, Repr

/-- The primary workload (`appsv1.Deployment`): identity plus the ordered
container list of its pod template.  Read-only to the controller. -/
structure Deployment where
  ns : String
  name : String
  containers : List Container
deriving DecidableEq, Repr

/-- A secondary template (`batchv1.CronJob`).  `containers` is
`Spec.JobTemplate.Spec.Template.Spec.Containers`; `labels`/`annotations`
are the metadata maps (association lists with unique keys, as Go maps);
`rest` stands for every other CronJob field, which the code never writes. -/
structure CronJob where
  ns : String
  name : String
  uid : String
  labels : List (String × String)
  annotations : List (String × String)
  containers : List Container
  rest : String
deriving DecidableEq, Repr

/-- An owner reference (`metav1.OwnerReference`).  The source only reads
`Kind`, `Name` and `UID`; the remaining fields are carried to show they are
ignored. -/
structure OwnerReference where
  apiVersion : String
  kind : String
  name : String
  uid : String
  controller : Bool
  blockOwnerDeletion : Bool
deriving DecidableEq, Repr

/-- A derived execution (`batchv1.Job`): identity and owner references. -/
structure Job where
  ns : String
  name : String
  ownerReferences : List OwnerReference
deriving DecidableEq, Repr

/-- The Go map `imageByName` built by
`for _, c := range deploy...Containers { imageByName[c.Name] = c.Image }`:
later insertions win, so lookup returns the image of the last container
with the given name. -/
def imageByName : List Container → String → Option String
  | [], _ => none
  | c :: cs, n =>
    match imageByName cs n with
    | some img => some img
    | none => if c.name = n then some c.image else none

/-- One step of the image-sync loop body (lines 116-133 of the source), for
a single container of the CronJob's job template.  Returns the possibly
updated container together with whether it changed. -/
def syncContainer (d : Deployment) (c : Container) : Container × Bool :=
  match imageByName d.containers c.name with
  | some img =>
    if c.image ≠ img then ({ c with image := img }, true) else (c, false)
  | none =>
    match d.containers with
    | [] => (c, false)
    | c0 :: _ =>
      if c.image ≠ c0.image then ({ c with image := c0.image }, true)
      else (c, false)

/-- The image-sync loop over the CronJob's container list; the Bool is the
`updated` flag accumulated across all containers. -/
def syncContainers (d : Deployment) : List Container → List Container × Bool
  | [] => ([], false)
  | c :: cs =>
    let p := syncContainer d c
    let ps := syncContainers d cs
    (p.1 :: ps.1, p.2 || ps.2)

/-- The effect of the sync loop on a whole CronJob: only the container list
changes, and the `updated` flag is returned. -/
def syncCronJob (d : Deployment) (cj : CronJob) : CronJob × Bool :=
  let p := syncContainers d cj.containers
  ({ cj with containers := p.1 }, p.2)

/-- Matching rule (a): label `managed-by-deployment` equals the Deployment
name (line 175). -/
def matchesLabel (cj : CronJob) (d : Deployment) : Bool :=
  match cj.labels.lookup "managed-by-deployment" with
  | some v => v == d.name
  | none => false

/-- Matching rule (b): annotation
`controller.example.com/managed-by-deployment` equals `<ns>/<name>`
(line 179). -/
def matchesAnnotation (cj : CronJob) (d : Deployment) : Bool :=
  match cj.annotations.lookup "controller.example.com/managed-by-deployment" with
  | some a => a == d.ns ++ "/" ++ d.name
  | none => false

/-- Matching rule (c), `hasSharedImage`: some container image of the
CronJob's job template occurs among the Deployment's container images
(lines 192-203). -/
def hasSharedImage (cj : CronJob) (d : Deployment) : Bool :=
  let depImages := d.containers.map (fun c => c.image)
  cj.containers.any (fun c => depImages.contains c.image)

/-- `findCronJobsForDeployment`: the loop over the namespace listing with
the three rules tried in order, `continue` after the first hit
(lines 173-189). -/
def findCronJobsForDeployment (cjs : List CronJob) (d : Deployment) : List CronJob :=
  match cjs with
  | [] => []
  | cj :: rest =>
    if matchesLabel cj d then cj :: findCronJobsForDeployment rest d
    else if matchesAnnotation cj d then cj :: findCronJobsForDeployment rest d
    else if hasSharedImage cj d then cj :: findCronJobsForDeployment rest d
    else findCronJobsForDeployment rest d

/-- `isOwnedByCronJob` (lines 268-277): some owner reference matches on
kind `"CronJob"`, name and UID. -/
def isOwnedByCronJob (job : Job) (cj : CronJob) : Bool :=
  job.ownerReferences.any (fun owner =>
    owner.kind == "CronJob" && owner.name == cj.name && owner.uid == cj.uid)

/-- Event severity (`corev1.EventTypeNormal` / `EventTypeWarning`). -/
inductive Severity where
  | normal
  | warning
deriving DecidableEq, Repr

/-- One observable effect of a reconcile: a store write, a counter
increment, or an emitted event.  `event`'s last field is the name of the
object the message is about (the Job name for `JobDeleted`, the CronJob
name otherwise). -/
inductive Op where
  | incCounter (counter : String) (ns : String) (name : String)
  | updateCronJob (cj : CronJob)
  | deleteJob (job : Job)
  | deleteAllPods (ns : String) (jobName : String)
  | event (sev : Severity) (reason : String) (about : String)
deriving DecidableEq, Repr

/-- Success oracles for the fallible store calls: `Update` on a CronJob,
`Delete` on a Job, `DeleteAllOf` on the Job's pods. -/
structure Env where
  updateOk : CronJob → Bool
  deleteJobOk : Job → Bool
  deletePodsOk : Job → Bool

/-- The environment in which every store call succeeds. -/
def Env.allOk : Env :=
  { updateOk := fun _ => true, deleteJobOk := fun _ => true,
    deletePodsOk := fun _ => true }

/-- `deleteJobsForCronJob` (lines 208-264): walk the Job listing; for each
Job owned by the CronJob, delete it (foreground), delete its pods by the
`job-name` label, bump the jobs-deleted counter and emit a `JobDeleted`
event; any store error aborts the remaining Jobs.  Returns the trace, the
surviving Jobs, and the error flag. -/
def deleteJobsForCronJob (env : Env) (cj : CronJob) :
    List Job → List Op × List Job × Bool
  | [] => ([], [], false)
  | job :: rest =>
    if isOwnedByCronJob job cj then
      if env.deleteJobOk job then
        if env.deletePodsOk job then
          let r := deleteJobsForCronJob env cj rest
          (Op.deleteJob job :: Op.deleteAllPods cj.ns job.name ::
             Op.incCounter "cronjob_image_sync_jobs_deleted_total" cj.ns cj.name ::
             Op.event .normal "JobDeleted" job.name :: r.1,
           r.2.1, r.2.2)
        else
          ([Op.deleteJob job, Op.deleteAllPods cj.ns job.name], rest, true)
      else
        ([Op.deleteJob job], job :: rest, true)
    else
      let r := deleteJobsForCronJob env cj rest
      (r.1, job :: r.2.1, r.2.2)

/-- The store contents of the Deployment's namespace. -/
structure St where
  cronjobs : List CronJob
  jobs : List Job
deriving DecidableEq, Repr

/-- Persisting an updated CronJob: the store replaces the object with the
same (namespace, name) key. -/
def applyUpdate (cj' : CronJob) (cjs : List CronJob) : List CronJob :=
  cjs.map (fun x => if x.ns == cj'.ns && x.name == cj'.name then cj' else x)

/-- The per-CronJob reconcile loop (lines 113-158) over the matched list:
sync images; if updated, persist (on failure: error counter, warning event,
abort), then bump the updated counter, emit `CronJobUpdated`, delete owned
Jobs (on failure: error counter, warning event, abort), and emit
`JobsRecreated`. -/
def reconcileLoop (env : Env) (d : Deployment) :
    List CronJob → St → List Op × St × Bool
  | [], st => ([], st, false)
  | cj :: rest, st =>
    let p := syncCronJob d cj
    if p.2 then
      if env.updateOk p.1 then
        let st1 : St := { st with cronjobs := applyUpdate p.1 st.cronjobs }
        let dr := deleteJobsForCronJob env p.1 st1.jobs
        let st2 : St := { st1 with jobs := dr.2.1 }
        let head := [Op.updateCronJob p.1,
          Op.incCounter "cronjob_image_sync_cronjobs_updated_total" cj.ns cj.name,
          Op.event .normal "CronJobUpdated" cj.name]
        if dr.2.2 then
          (head ++ dr.1 ++
             [Op.incCounter "cronjob_image_sync_errors_total" d.ns d.name,
              Op.event .warning "DeleteJobsFailed" cj.name], st2, true)
        else
          let r := reconcileLoop env d rest st2
          (head ++ dr.1 ++ [Op.event .normal "JobsRecreated" cj.name] ++ r.1,
           r.2.1, r.2.2)
      else
        ([Op.updateCronJob p.1,
          Op.incCounter "cronjob_image_sync_errors_total" d.ns d.name,
          Op.event .warning "UpdateFailed" cj.name], st, true)
    else
      reconcileLoop env d rest st

/-- `Reconcile` (lines 90-161) after a successful fetch of the Deployment:
bump the reconciles counter, match CronJobs against the listing snapshot,
and run the per-CronJob loop. -/
def Reconcile (env : Env) (d : Deployment) (st : St) : List Op × St × Bool :=
  let r := reconcileLoop env d (findCronJobsForDeployment st.cronjobs d) st
  (Op.incCounter "cronjob_image_sync_reconciles_total" d.ns d.name :: r.1,
   r.2.1, r.2.2)

/-- The disjunction of the three matching rules, in source order. -/
def matchesDeployment (cj : CronJob) (d : Deployment) : Bool :=
  matchesLabel cj d || matchesAnnotation cj d || hasSharedImage cj d

/-- Recognizes warning-severity events in a trace. -/
def isWarningEvent : Op → Bool
  | Op.event .warning _ _ => true
  | _ => false

/-- Recognizes Job deletions (attempted store `Delete` calls) in a trace. -/
def isDeleteJobOp : Op → Bool
  | Op.deleteJob _ => true
  | _ => false

/-- The error-counter increment op for a Deployment. -/
def errorInc (d : Deployment) : Op :=
  Op.incCounter "cronjob_image_sync_errors_total" d.ns d.name

/-- The jobs-deleted-counter increment op for a CronJob. -/
def jobsDeletedInc (cj : CronJob) : Op :=
  Op.incCounter "cronjob_image_sync_jobs_deleted_total" cj.ns cj.name

/-- A Job deletion that succeeded and whose pod sweep also succeeded, i.e.
one that reaches the counter/event accounting in the source loop. -/
def isAccountedDelete (env : Env) : Op → Bool
  | Op.deleteJob j => env.deleteJobOk j && env.deletePodsOk j
  | _ => false

/-- An accounted Job deletion of a Job with the given name. -/
def isAccountedDeleteNamed (env : Env) (n : String) : Op → Bool
  | Op.deleteJob j => env.deleteJobOk j && env.deletePodsOk j && (j.name == n)
  | _ => false

/-- A normal-severity `JobDeleted` event about the Job with the given
name. -/
def isJobDeletedEvent (n : String) : Op → Bool
  | Op.event .normal "JobDeleted" m => m == n
  | _ => false

/-- Temporal check on a trace: every Job deletion is preceded by a
successful persist of a CronJob that owns the deleted Job.  `seen`
accumulates the successfully persisted CronJobs along the trace. -/
def deletesAfterPersist (env : Env) : List CronJob → List Op → Bool
  | _, [] => true
  | seen, Op.updateCronJob cj :: rest =>
    deletesAfterPersist env (if env.updateOk cj then cj :: seen else seen) rest
  | seen, Op.deleteJob j :: rest =>
    seen.any (fun cj => isOwnedByCronJob j cj) && deletesAfterPersist env seen rest
  | seen, _ :: rest => deletesAfterPersist env seen rest

/-- The persisted CronJobs accumulated by `deletesAfterPersist` after a
trace. -/
def seenAfter (env : Env) : List CronJob → List Op → List CronJob
  | seen, [] => seen
  | seen, Op.updateCronJob cj :: rest =>
    seenAfter env (if env.updateOk cj then cj :: seen else seen) rest
  | seen, _ :: rest => seenAfter env seen rest

/-! ### Basic facts about the image-sync step -/

theorem syncContainer_eq_of_some (d : Deployment) (c : Container) (img : String)
    (h : imageByName d.containers c.name = some img) :
    syncContainer d c =
      if c.image = img then (c, false) else ({ c with image := img }, true) := by
  unfold syncContainer
  rw [h]
  by_cases hc : c.image = img <;> simp [hc]

theorem syncContainer_eq_of_none_nil (d : Deployment) (c : Container)
    (h : imageByName d.containers c.name = none) (hd : d.containers = []) :
    syncContainer d c = (c, false) := by
  unfold syncContainer
  rw [h, hd]

theorem syncContainer_eq_of_none_cons (d : Deployment) (c c0 : Container)
    (l : List Container) (h : imageByName d.containers c.name = none)
    (hd : d.containers = c0 :: l) :
    syncContainer d c =
      if c.image = c0.image then (c, false)
      else ({ c with image := c0.image }, true) := by
  unfold syncContainer
  rw [h, hd]
  by_cases hc : c.image = c0.image <;> simp [hc]

theorem syncContainer_name (d : Deployment) (c : Container) :
    (syncContainer d c).1.name = c.name := by
  cases hi : imageByName d.containers c.name with
  | some img =>
    rw [syncContainer_eq_of_some d c img hi]
    by_cases hc : c.image = img <;> simp [hc]
  | none =>
    cases hd : d.containers with
    | nil => rw [syncContainer_eq_of_none_nil d c hi hd]
    | cons c0 l =>
      rw [syncContainer_eq_of_none_cons d c c0 l hi hd]
      by_cases hc : c.image = c0.image <;> simp [hc]

theorem syncContainer_rest (d : Deployment) (c : Container) :
    (syncContainer d c).1.rest = c.rest := by
  cases hi : imageByName d.containers c.name with
  | some img =>
    rw [syncContainer_eq_of_some d c img hi]
    by_cases hc : c.image = img <;> simp [hc]
  | none =>
    cases hd : d.containers with
    | nil => rw [syncContainer_eq_of_none_nil d c hi hd]
    | cons c0 l =>
      rw [syncContainer_eq_of_none_cons d c c0 l hi hd]
      by_cases hc : c.image = c0.image <;> simp [hc]

theorem syncContainer_image_of_some (d : Deployment) (c : Container) (img : String)
    (h : imageByName d.containers c.name = some img) :
    (syncContainer d c).1.image = img := by
  rw [syncContainer_eq_of_some d c img h]
  by_cases hc : c.image = img <;> simp [hc]

theorem syncContainer_of_not_updated (d : Deployment) (c : Container)
    (h : (syncContainer d c).2 = false) : (syncContainer d c).1 = c := by
  cases hi : imageByName d.containers c.name with
  | some img =>
    rw [syncContainer_eq_of_some d c img hi] at h ⊢
    by_cases hc : c.image = img
    · simp [hc]
    · simp [hc] at h
  | none =>
    cases hd : d.containers with
    | nil => rw [syncContainer_eq_of_none_nil d c hi hd]
    | cons c0 l =>
      rw [syncContainer_eq_of_none_cons d c c0 l hi hd] at h ⊢
      by_cases hc : c.image = c0.image
      · simp [hc]
      · simp [hc] at h

/-- Running the per-container sync step twice changes nothing the second
time. -/
theorem syncContainer_idem (d : Deployment) (c : Container) :
    syncContainer d (syncContainer d c).1 = ((syncContainer d c).1, false) := by
  have hname : (syncContainer d c).1.name = c.name := syncContainer_name d c
  cases hi : imageByName d.containers c.name with
  | some img =>
    have hi' : imageByName d.containers (syncContainer d c).1.name = some img := by
      rw [hname, hi]
    have himg : (syncContainer d c).1.image = img :=
      syncContainer_image_of_some d c img hi
    rw [syncContainer_eq_of_some d _ img hi', himg]
    simp
  | none =>
    have hi' : imageByName d.containers (syncContainer d c).1.name = none := by
      rw [hname, hi]
    cases hd : d.containers with
    | nil => rw [syncContainer_eq_of_none_nil d _ hi' hd]
    | cons c0 l =>
      have himg : (syncContainer d c).1.image = c0.image := by
        rw [syncContainer_eq_of_none_cons d c c0 l hi hd]
        by_cases hc : c.image = c0.image <;> simp [hc]
      rw [syncContainer_eq_of_none_cons d _ c0 l hi' hd, himg]
      simp

theorem syncContainers_fst (d : Deployment) (cs : List Container) :
    (syncContainers d cs).1 = cs.map (fun c => (syncContainer d c).1) := by
  induction cs with
  | nil => rfl
  | cons c cs ih => simp [syncContainers, ih]

theorem syncContainers_snd (d : Deployment) (cs : List Container) :
    (syncContainers d cs).2 = cs.any (fun c => (syncContainer d c).2) := by
  induction cs with
  | nil => rfl
  | cons c cs ih => simp [syncContainers, ih]

theorem syncContainers_of_not_updated (d : Deployment) (cs : List Container)
    (h : (syncContainers d cs).2 = false) : (syncContainers d cs).1 = cs := by
  rw [syncContainers_fst]
  rw [syncContainers_snd] at h
  simp only [List.any_eq_false] at h
  conv_rhs => rw [show cs = cs.map id from (List.map_id cs).symm]
  exact List.map_congr_left fun c hc =>
    syncContainer_of_not_updated d c (by simpa using h c hc)

theorem syncCronJob_of_not_updated (d : Deployment) (cj : CronJob)
    (h : (syncCronJob d cj).2 = false) : (syncCronJob d cj).1 = cj := by
  unfold syncCronJob at h ⊢
  simp only at h ⊢
  rw [syncContainers_of_not_updated d cj.containers h]

theorem syncContainers_idem (d : Deployment) (cs : List Container) :
    syncContainers d (syncContainers d cs).1 = ((syncContainers d cs).1, false) := by
  induction cs with
  | nil => rfl
  | cons c cs ih =>
    show syncContainers d ((syncContainer d c).1 :: (syncContainers d cs).1) = _
    simp [syncContainers, syncContainer_idem, ih]

/-- Syncing an already-synced CronJob reports no change. -/
theorem syncCronJob_idem (d : Deployment) (cj : CronJob) :
    syncCronJob d (syncCronJob d cj).1 = ((syncCronJob d cj).1, false) := by
  simp [syncCronJob, syncContainers_idem]

/-! ### C1: name-based sync completeness -/

/-- C1: for every primary workload P and matched secondary S, every
container of S's job template whose name is the name of some container of
P has, after the image-sync step, exactly P's image for that name. -/
theorem name_based_sync_completeness (d : Deployment) (cj : CronJob)
    (c' : Container) (h : c' ∈ (syncCronJob d cj).1.containers)
    (img : String) (himg : imageByName d.containers c'.name = some img) :
    c'.image = img := by
  have hc : (syncCronJob d cj).1.containers
      = cj.containers.map (fun c => (syncContainer d c).1) := by
    simp [syncCronJob, syncContainers_fst]
  rw [hc] at h
  obtain ⟨c, hcmem, rfl⟩ := List.mem_map.mp h
  rw [syncContainer_name] at himg
  exact syncContainer_image_of_some d c img himg

theorem name_based_sync_completeness_witness :
    (Container.mk "a" "i2" "").image = "i2" := by
  have h := name_based_sync_completeness
    (Deployment.mk "ns" "dep" [Container.mk "a" "i2" ""])
    (CronJob.mk "ns" "cj" "u" [] [] [Container.mk "a" "i1" ""] "")
    (Container.mk "a" "i2" "") (by decide) "i2" (by decide)
  exact h

/-! ### C2: positional fallback for unmatched container names -/

/-- C2: a container of S's job template whose name is absent from P's
container map receives the image of P's first container when it differs
(setting the mutated flag), and is untouched when P has no containers. -/
theorem positional_fallback (d : Deployment) (cs : List Container) (i : Nat)
    (c : Container) (hget : cs[i]? = some c)
    (hnone : imageByName d.containers c.name = none) :
    (d.containers = [] → (syncContainers d cs).1[i]? = some c) ∧
    (∀ c0 l, d.containers = c0 :: l →
      (syncContainers d cs).1[i]? = some { c with image := c0.image } ∧
      (c.image ≠ c0.image → (syncContainers d cs).2 = true)) := by
  constructor
  · intro hd
    rw [syncContainers_fst, List.getElem?_map, hget]
    simp [syncContainer_eq_of_none_nil d c hnone hd]
  · intro c0 l hd
    constructor
    · rw [syncContainers_fst, List.getElem?_map, hget]
      simp only [Option.map_some']
      rw [syncContainer_eq_of_none_cons d c c0 l hnone hd]
      by_cases hc : c.image = c0.image
      · rw [if_pos hc, ← hc]
      · rw [if_neg hc]
    · intro hne
      rw [syncContainers_snd]
      have hcmem : c ∈ cs := List.getElem?_mem hget
      apply List.any_eq_true.mpr
      refine ⟨c, hcmem, ?_⟩
      rw [syncContainer_eq_of_none_cons d c c0 l hnone hd]
      simp [hne]

theorem positional_fallback_witness :
    (syncContainers (Deployment.mk "ns" "dep" [Container.mk "a" "i2" ""])
      [Container.mk "b" "i1" ""]).1[0]? = some (Container.mk "b" "i2" "") ∧
    (syncContainers (Deployment.mk "ns" "dep" [Container.mk "a" "i2" ""])
      [Container.mk "b" "i1" ""]).2 = true := by
  have h := positional_fallback
    (Deployment.mk "ns" "dep" [Container.mk "a" "i2" ""])
    [Container.mk "b" "i1" ""] 0 (Container.mk "b" "i1" "")
    (by decide) (by decide)
  have h2 := h.2 (Container.mk "a" "i2" "") [] rfl
  exact ⟨h2.1, h2.2 (by decide)⟩

/-! ### The shape of JobInvalidator traces -/

/-- Every op emitted by `deleteJobsForCronJob` is a Job deletion of an
owned Job, a pod sweep, a jobs-deleted counter bump, or a normal
`JobDeleted` event. -/
theorem deleteJobs_ops_mem (env : Env) (cj : CronJob) (jobs : List Job)
    (op : Op) (h : op ∈ (deleteJobsForCronJob env cj jobs).1) :
    (∃ j, op = Op.deleteJob j ∧ isOwnedByCronJob j cj = true) ∨
    (∃ n, op = Op.deleteAllPods cj.ns n) ∨
    op = Op.incCounter "cronjob_image_sync_jobs_deleted_total" cj.ns cj.name ∨
    (∃ n, op = Op.event .normal "JobDeleted" n) := by
  induction jobs with
  | nil => simp [deleteJobsForCronJob] at h
  | cons job rest ih =>
    unfold deleteJobsForCronJob at h
    by_cases h1 : isOwnedByCronJob job cj
    · rw [if_pos h1] at h
      by_cases h2 : env.deleteJobOk job
      · rw [if_pos h2] at h
        by_cases h3 : env.deletePodsOk job
        · rw [if_pos h3] at h
          simp only [List.mem_cons] at h
          rcases h with h | h | h | h | h
          · exact Or.inl ⟨job, h, h1⟩
          · exact Or.inr (Or.inl ⟨job.name, h⟩)
          · exact Or.inr (Or.inr (Or.inl h))
          · exact Or.inr (Or.inr (Or.inr ⟨job.name, h⟩))
          · exact ih h
        · rw [if_neg h3] at h
          simp only [List.mem_cons, List.not_mem_nil, or_false] at h
          rcases h with h | h
          · exact Or.inl ⟨job, h, h1⟩
          · exact Or.inr (Or.inl ⟨job.name, h⟩)
      · rw [if_neg h2] at h
        simp only [List.mem_singleton] at h
        exact Or.inl ⟨job, h, h1⟩
    · rw [if_neg h1] at h
      exact ih h

/-! ### C4: only owned Jobs are ever deleted -/

/-- C4: `JobInvalidator` deletes a Job only if some owner reference of the
Job has kind `"CronJob"`, the CronJob's name, and the CronJob's UID; in
particular a Job whose matching reference disagrees on the UID is never
deleted. -/
theorem delete_only_owned (env : Env) (cj : CronJob) (jobs : List Job)
    (j : Job) (h : Op.deleteJob j ∈ (deleteJobsForCronJob env cj jobs).1) :
    isOwnedByCronJob j cj = true ∧
    ∃ o, o ∈ j.ownerReferences ∧ o.kind = "CronJob" ∧ o.name = cj.name ∧
      o.uid = cj.uid := by
  have hown : isOwnedByCronJob j cj = true := by
    rcases deleteJobs_ops_mem env cj jobs _ h with ⟨j', hj, ho2⟩ | ⟨n, hn⟩ | hc | ⟨n, hn⟩
    · cases hj
      exact ho2
    · cases hn
    · cases hc
    · cases hn
  refine ⟨hown, ?_⟩
  unfold isOwnedByCronJob at hown
  simp only [List.any_eq_true, Bool.and_eq_true, beq_iff_eq] at hown
  obtain ⟨o, ho, ⟨hk, hn⟩, hu⟩ := hown
  exact ⟨o, ho, hk, hn, hu⟩

theorem delete_only_owned_witness :
    isOwnedByCronJob
      (Job.mk "ns" "j1" [OwnerReference.mk "batch/v1" "CronJob" "cj" "u1" true false])
      (CronJob.mk "ns" "cj" "u1" [] [] [] "") = true ∧
    ∃ o, o ∈ (Job.mk "ns" "j1"
        [OwnerReference.mk "batch/v1" "CronJob" "cj" "u1" true false]).ownerReferences ∧
      o.kind = "CronJob" ∧ o.name = (CronJob.mk "ns" "cj" "u1" [] [] [] "").name ∧
      o.uid = (CronJob.mk "ns" "cj" "u1" [] [] [] "").uid :=
  delete_only_owned Env.allOk (CronJob.mk "ns" "cj" "u1" [] [] [] "")
    [Job.mk "ns" "j1" [OwnerReference.mk "batch/v1" "CronJob" "cj" "u1" true false]]
    (Job.mk "ns" "j1" [OwnerReference.mk "batch/v1" "CronJob" "cj" "u1" true false])
    (by decide)

/-! ### C5: the matcher is duplicate-free and rule-order independent -/

theorem findCronJobs_eq_filter (cjs : List CronJob) (d : Deployment) :
    findCronJobsForDeployment cjs d
      = cjs.filter (fun cj =>
          matchesLabel cj d || matchesAnnotation cj d || hasSharedImage cj d) := by
  induction cjs with
  | nil => rfl
  | cons cj rest ih =>
    unfold findCronJobsForDeployment
    by_cases h1 : matchesLabel cj d
    · simp [List.filter_cons, h1, ih]
    · by_cases h2 : matchesAnnotation cj d
      · simp [List.filter_cons, h1, h2, ih]
      · by_cases h3 : hasSharedImage cj d
        · simp [List.filter_cons, h1, h2, h3, ih]
        · simp [List.filter_cons, h1, h2, h3, ih]

/-- C5: the matched set contains each candidate at most once even when it
satisfies several rules (a duplicate-free candidate list yields a
duplicate-free matched list), and the matched set is the filter of the
disjunction of the three rules, unchanged when the rules are evaluated in
the reverse order. -/
theorem matcher_exclusive_order_independent (d : Deployment) (cjs : List CronJob) :
    (cjs.Nodup → (findCronJobsForDeployment cjs d).Nodup) ∧
    findCronJobsForDeployment cjs d
      = cjs.filter (fun cj =>
          matchesLabel cj d || matchesAnnotation cj d || hasSharedImage cj d) ∧
    findCronJobsForDeployment cjs d
      = cjs.filter (fun cj =>
          hasSharedImage cj d || matchesAnnotation cj d || matchesLabel cj d) := by
  refine ⟨?_, findCronJobs_eq_filter cjs d, ?_⟩
  · intro h
    rw [findCronJobs_eq_filter]
    exact h.filter _
  · rw [findCronJobs_eq_filter]
    apply List.filter_congr
    intro cj _
    cases matchesLabel cj d <;> cases matchesAnnotation cj d <;>
      cases hasSharedImage cj d <;> rfl

theorem matcher_exclusive_order_independent_witness :
    (findCronJobsForDeployment
      [CronJob.mk "ns" "cj" "u" [("managed-by-deployment", "dep")]
        [("controller.example.com/managed-by-deployment", "ns/dep")]
        [Container.mk "a" "i1" ""] ""]
      (Deployment.mk "ns" "dep" [Container.mk "a" "i1" ""])).Nodup := by
  have h := matcher_exclusive_order_independent
    (Deployment.mk "ns" "dep" [Container.mk "a" "i1" ""])
    [CronJob.mk "ns" "cj" "u" [("managed-by-deployment", "dep")]
      [("controller.example.com/managed-by-deployment", "ns/dep")]
      [Container.mk "a" "i1" ""] ""]
  exact h.1 (by decide)

/-! ### C10: the ownership test reads exactly kind, name and UID -/

/-- C10: `isOwnedByCronJob` succeeds iff some owner reference matches on
kind `"CronJob"`, name and UID; every other owner-reference field
(apiVersion, controller, blockOwnerDeletion) is ignored, so rewriting
those fields never changes the outcome. -/
theorem owned_iff_kind_name_uid (job : Job) (cj : CronJob) :
    (isOwnedByCronJob job cj = true ↔
      ∃ o, o ∈ job.ownerReferences ∧ o.kind = "CronJob" ∧ o.name = cj.name ∧
        o.uid = cj.uid) ∧
    (∀ g : OwnerReference → OwnerReference,
      (∀ o, (g o).kind = o.kind ∧ (g o).name = o.name ∧ (g o).uid = o.uid) →
      isOwnedByCronJob { job with ownerReferences := job.ownerReferences.map g } cj
        = isOwnedByCronJob job cj) := by
  constructor
  · unfold isOwnedByCronJob
    simp only [List.any_eq_true, Bool.and_eq_true, beq_iff_eq]
    constructor
    · rintro ⟨o, ho, ⟨hk, hn⟩, hu⟩
      exact ⟨o, ho, hk, hn, hu⟩
    · rintro ⟨o, ho, hk, hn, hu⟩
      exact ⟨o, ho, ⟨hk, hn⟩, hu⟩
  · intro g hg
    show (job.ownerReferences.map g).any _ = job.ownerReferences.any _
    rw [List.any_map]
    induction job.ownerReferences with
    | nil => rfl
    | cons o os ih =>
      simp only [List.any_cons, ih, Function.comp_apply]
      rw [(hg o).1, (hg o).2.1, (hg o).2.2]

theorem owned_iff_kind_name_uid_witness :
    isOwnedByCronJob
      { Job.mk "ns" "j1" [OwnerReference.mk "batch/v1" "CronJob" "cj" "u1" true true] with
        ownerReferences :=
          (Job.mk "ns" "j1"
            [OwnerReference.mk "batch/v1" "CronJob" "cj" "u1" true true]).ownerReferences.map
            (fun o => { o with controller := false, apiVersion := "v9" }) }
      (CronJob.mk "ns" "cj" "u1" [] [] [] "")
    = isOwnedByCronJob
        (Job.mk "ns" "j1" [OwnerReference.mk "batch/v1" "CronJob" "cj" "u1" true true])
        (CronJob.mk "ns" "cj" "u1" [] [] [] "") := by
  have h := owned_iff_kind_name_uid
    (Job.mk "ns" "j1" [OwnerReference.mk "batch/v1" "CronJob" "cj" "u1" true true])
    (CronJob.mk "ns" "cj" "u1" [] [] [] "")
  exact h.2 (fun o => { o with controller := false, apiVersion := "v9" })
    (fun o => ⟨rfl, rfl, rfl⟩)

/-! ### Equation lemmas for the reconcile loop -/

theorem reconcileLoop_nil (env : Env) (d : Deployment) (st : St) :
    reconcileLoop env d [] st = ([], st, false) := rfl

theorem reconcileLoop_cons_skip (env : Env) (d : Deployment) (cj : CronJob)
    (rest : List CronJob) (st : St) (h : (syncCronJob d cj).2 = false) :
    reconcileLoop env d (cj :: rest) st = reconcileLoop env d rest st := by
  simp [reconcileLoop, h]

theorem reconcileLoop_cons_fail (env : Env) (d : Deployment) (cj : CronJob)
    (rest : List CronJob) (st : St) (h1 : (syncCronJob d cj).2 = true)
    (h2 : env.updateOk (syncCronJob d cj).1 = false) :
    reconcileLoop env d (cj :: rest) st =
      ([Op.updateCronJob (syncCronJob d cj).1, errorInc d,
        Op.event .warning "UpdateFailed" cj.name], st, true) := by
  simp [reconcileLoop, h1, h2, errorInc]

theorem reconcileLoop_cons_ok_err (env : Env) (d : Deployment) (cj : CronJob)
    (rest : List CronJob) (st : St) (h1 : (syncCronJob d cj).2 = true)
    (h2 : env.updateOk (syncCronJob d cj).1 = true)
    (h3 : (deleteJobsForCronJob env (syncCronJob d cj).1 st.jobs).2.2 = true) :
    reconcileLoop env d (cj :: rest) st =
      ([Op.updateCronJob (syncCronJob d cj).1,
        Op.incCounter "cronjob_image_sync_cronjobs_updated_total" cj.ns cj.name,
        Op.event .normal "CronJobUpdated" cj.name] ++
        (deleteJobsForCronJob env (syncCronJob d cj).1 st.jobs).1 ++
        [errorInc d, Op.event .warning "DeleteJobsFailed" cj.name],
       St.mk (applyUpdate (syncCronJob d cj).1 st.cronjobs)
         (deleteJobsForCronJob env (syncCronJob d cj).1 st.jobs).2.1,
       true) := by
  simp [reconcileLoop, h1, h2, h3, errorInc]

theorem reconcileLoop_cons_ok_noerr (env : Env) (d : Deployment) (cj : CronJob)
    (rest : List CronJob) (st : St) (h1 : (syncCronJob d cj).2 = true)
    (h2 : env.updateOk (syncCronJob d cj).1 = true)
    (h3 : (deleteJobsForCronJob env (syncCronJob d cj).1 st.jobs).2.2 = false) :
    reconcileLoop env d (cj :: rest) st =
      ([Op.updateCronJob (syncCronJob d cj).1,
        Op.incCounter "cronjob_image_sync_cronjobs_updated_total" cj.ns cj.name,
        Op.event .normal "CronJobUpdated" cj.name] ++
        (deleteJobsForCronJob env (syncCronJob d cj).1 st.jobs).1 ++
        [Op.event .normal "JobsRecreated" cj.name] ++
        (reconcileLoop env d rest
          (St.mk (applyUpdate (syncCronJob d cj).1 st.cronjobs)
            (deleteJobsForCronJob env (syncCronJob d cj).1 st.jobs).2.1)).1,
       (reconcileLoop env d rest
          (St.mk (applyUpdate (syncCronJob d cj).1 st.cronjobs)
            (deleteJobsForCronJob env (syncCronJob d cj).1 st.jobs).2.1)).2.1,
       (reconcileLoop env d rest
          (St.mk (applyUpdate (syncCronJob d cj).1 st.cronjobs)
            (deleteJobsForCronJob env (syncCronJob d cj).1 st.jobs).2.1)).2.2) := by
  simp [reconcileLoop, h1, h2, h3]

/-! ### Behaviour when every store call succeeds -/

theorem deleteJobs_allOk_noerr (cj : CronJob) (jobs : List Job) :
    (deleteJobsForCronJob Env.allOk cj jobs).2.2 = false := by
  induction jobs with
  | nil => rfl
  | cons job rest ih =>
    unfold deleteJobsForCronJob
    by_cases h1 : isOwnedByCronJob job cj
    · rw [if_pos h1]
      show (deleteJobsForCronJob Env.allOk cj rest).2.2 = false
      exact ih
    · rw [if_neg h1]
      exact ih

theorem reconcileLoop_allOk_noerr (d : Deployment) (l : List CronJob) (st : St) :
    (reconcileLoop Env.allOk d l st).2.2 = false := by
  induction l generalizing st with
  | nil => rfl
  | cons cj rest ih =>
    cases h1 : (syncCronJob d cj).2 with
    | false => rw [reconcileLoop_cons_skip _ _ _ _ _ h1]; exact ih st
    | true =>
      have h2 : Env.allOk.updateOk (syncCronJob d cj).1 = true := rfl
      cases h3 : (deleteJobsForCronJob Env.allOk (syncCronJob d cj).1 st.jobs).2.2 with
      | true => rw [deleteJobs_allOk_noerr] at h3; cases h3
      | false =>
        rw [reconcileLoop_cons_ok_noerr _ _ _ _ _ h1 h2 h3]
        exact ih _

/-- A matched list of already-synced CronJobs produces no ops and leaves
the store untouched. -/
theorem reconcileLoop_all_stable (env : Env) (d : Deployment) (l : List CronJob)
    (st : St) (h : ∀ cj ∈ l, (syncCronJob d cj).2 = false) :
    reconcileLoop env d l st = ([], st, false) := by
  induction l with
  | nil => rfl
  | cons cj rest ih =>
    rw [reconcileLoop_cons_skip _ _ _ _ _ (h cj (List.mem_cons_self cj rest))]
    exact ih fun x hx => h x (List.mem_cons_of_mem cj hx)

/-- Store invariant after a fully successful pass: every CronJob left in
the store that matches the Deployment is already in sync. -/
theorem reconcileLoop_allOk_store_stable (d : Deployment) (l : List CronJob)
    (st : St)
    (hinv : ∀ x ∈ st.cronjobs, matchesDeployment x d = true →
      (syncCronJob d x).2 = false ∨ x ∈ l) :
    ∀ x ∈ (reconcileLoop Env.allOk d l st).2.1.cronjobs,
      matchesDeployment x d = true → (syncCronJob d x).2 = false := by
  induction l generalizing st with
  | nil =>
    intro x hx hm
    rcases hinv x hx hm with h | h
    · exact h
    · cases h
  | cons cj rest ih =>
    cases h1 : (syncCronJob d cj).2 with
    | false =>
      rw [reconcileLoop_cons_skip _ _ _ _ _ h1]
      apply ih
      intro x hx hm
      rcases hinv x hx hm with h | h
      · exact Or.inl h
      · rcases List.mem_cons.mp h with rfl | h'
        · exact Or.inl h1
        · exact Or.inr h'
    | true =>
      have h2 : Env.allOk.updateOk (syncCronJob d cj).1 = true := rfl
      cases h3 : (deleteJobsForCronJob Env.allOk (syncCronJob d cj).1 st.jobs).2.2 with
      | true => rw [deleteJobs_allOk_noerr] at h3; cases h3
      | false =>
        rw [reconcileLoop_cons_ok_noerr _ _ _ _ _ h1 h2 h3]
        apply ih
        intro x hx hm
        obtain ⟨y, hy, hxy⟩ := List.mem_map.mp hx
        by_cases hkey : (y.ns == (syncCronJob d cj).1.ns &&
            y.name == (syncCronJob d cj).1.name) = true
        · rw [if_pos hkey] at hxy
          subst hxy
          left
          have := syncCronJob_idem d cj
          exact congrArg Prod.snd this
        · rw [if_neg hkey] at hxy
          subst hxy
          rcases hinv y hy hm with h | h
          · exact Or.inl h
          · rcases List.mem_cons.mp h with rfl | h'
            · refine absurd ?_ hkey
              simp only [Bool.and_eq_true, beq_iff_eq]
              exact ⟨rfl, rfl⟩
            · exact Or.inr h'

/-! ### C3: reconcile is idempotent -/

/-- C3: after a successful reconcile of P against a store, every CronJob
the second pass matches is already in sync (`mutated = false`), and the
second pass — under any environment — emits only the unconditional
reconcile-counter increment: zero update writes, zero deletions and zero
notifications, leaving the store unchanged. -/
theorem reconcile_idempotent (env : Env) (d : Deployment) (st : St) :
    (Reconcile Env.allOk d st).2.2 = false ∧
    (∀ cj ∈ findCronJobsForDeployment (Reconcile Env.allOk d st).2.1.cronjobs d,
      (syncCronJob d cj).2 = false) ∧
    Reconcile env d (Reconcile Env.allOk d st).2.1
      = ([Op.incCounter "cronjob_image_sync_reconciles_total" d.ns d.name],
         (Reconcile Env.allOk d st).2.1, false) := by
  have hstable : ∀ cj ∈ findCronJobsForDeployment
      (Reconcile Env.allOk d st).2.1.cronjobs d, (syncCronJob d cj).2 = false := by
    intro cj hcj
    rw [findCronJobs_eq_filter] at hcj
    have hmem := List.mem_of_mem_filter hcj
    have hmatch : matchesDeployment cj d = true := by
      have := List.of_mem_filter hcj
      simpa [matchesDeployment] using this
    apply reconcileLoop_allOk_store_stable d
      (findCronJobsForDeployment st.cronjobs d) st ?_ cj hmem hmatch
    intro x hx hm
    right
    rw [findCronJobs_eq_filter]
    apply List.mem_filter.mpr
    exact ⟨hx, by simpa [matchesDeployment] using hm⟩
  refine ⟨?_, hstable, ?_⟩
  · exact reconcileLoop_allOk_noerr d _ st
  · show (Op.incCounter "cronjob_image_sync_reconciles_total" d.ns d.name ::
        (reconcileLoop env d _ _).1, _, _) = _
    rw [reconcileLoop_all_stable env d _ _ hstable]

/-! ### C7: only container images are modified -/

theorem deleteJobs_no_update (env : Env) (cj : CronJob) (jobs : List Job)
    (x : CronJob) : Op.updateCronJob x ∉ (deleteJobsForCronJob env cj jobs).1 := by
  intro h
  rcases deleteJobs_ops_mem env cj jobs _ h with ⟨j, hj, _⟩ | ⟨n, hn⟩ | hc | ⟨n, hn⟩
  · exact Op.noConfusion hj
  · exact Op.noConfusion hn
  · exact Op.noConfusion hc
  · exact Op.noConfusion hn

/-- Every update write in a loop trace carries the synced version of some
matched CronJob whose sync reported a mutation. -/
theorem reconcileLoop_update_ops (env : Env) (d : Deployment) (l : List CronJob)
    (st : St) (cj' : CronJob)
    (h : Op.updateCronJob cj' ∈ (reconcileLoop env d l st).1) :
    ∃ cj, cj ∈ l ∧ (syncCronJob d cj).2 = true ∧ cj' = (syncCronJob d cj).1 := by
  induction l generalizing st with
  | nil => cases h
  | cons cj rest ih =>
    cases h1 : (syncCronJob d cj).2 with
    | false =>
      rw [reconcileLoop_cons_skip _ _ _ _ _ h1] at h
      obtain ⟨m, hm, hu, he⟩ := ih st h
      exact ⟨m, List.mem_cons_of_mem cj hm, hu, he⟩
    | true =>
      cases h2 : env.updateOk (syncCronJob d cj).1 with
      | false =>
        rw [reconcileLoop_cons_fail _ _ _ _ _ h1 h2] at h
        simp only [List.mem_cons, List.not_mem_nil, or_false] at h
        rcases h with h | h | h
        · cases h
          exact ⟨cj, List.mem_cons_self cj rest, h1, rfl⟩
        · exact Op.noConfusion h
        · exact Op.noConfusion h
      | true =>
        cases h3 : (deleteJobsForCronJob env (syncCronJob d cj).1 st.jobs).2.2 with
        | true =>
          rw [reconcileLoop_cons_ok_err _ _ _ _ _ h1 h2 h3] at h
          simp only [List.append_assoc, List.mem_append, List.mem_cons,
            List.not_mem_nil, or_false] at h
          rcases h with (h | h | h) | h | h | h
          · cases h
            exact ⟨cj, List.mem_cons_self cj rest, h1, rfl⟩
          · exact Op.noConfusion h
          · exact Op.noConfusion h
          · exact absurd h (deleteJobs_no_update env _ _ _)
          · exact Op.noConfusion h
          · exact Op.noConfusion h
        | false =>
          rw [reconcileLoop_cons_ok_noerr _ _ _ _ _ h1 h2 h3] at h
          simp only [List.append_assoc, List.mem_append, List.mem_cons,
            List.not_mem_nil, or_false] at h
          rcases h with (h | h | h) | h | h | h
          · cases h
            exact ⟨cj, List.mem_cons_self cj rest, h1, rfl⟩
          · exact Op.noConfusion h
          · exact Op.noConfusion h
          · exact absurd h (deleteJobs_no_update env _ _ _)
          · exact Op.noConfusion h
          · obtain ⟨m, hm, hu, he⟩ := ih _ h
            exact ⟨m, List.mem_cons_of_mem cj hm, hu, he⟩

/-- The sync step changes nothing but container images: identity, labels,
annotations, every other CronJob field, and the name and remaining fields
of every container are preserved. -/
theorem syncCronJob_frame (d : Deployment) (cj : CronJob) :
    (syncCronJob d cj).1.ns = cj.ns ∧ (syncCronJob d cj).1.name = cj.name ∧
    (syncCronJob d cj).1.uid = cj.uid ∧
    (syncCronJob d cj).1.labels = cj.labels ∧
    (syncCronJob d cj).1.annotations = cj.annotations ∧
    (syncCronJob d cj).1.rest = cj.rest ∧
    (syncCronJob d cj).1.containers.map (fun c => (c.name, c.rest))
      = cj.containers.map (fun c => (c.name, c.rest)) := by
  refine ⟨rfl, rfl, rfl, rfl, rfl, rfl, ?_⟩
  show (syncContainers d cj.containers).1.map _ = _
  rw [syncContainers_fst, List.map_map]
  apply List.map_congr_left
  intro c _
  simp only [Function.comp_apply, syncContainer_name, syncContainer_rest]

/-- C7: every CronJob persisted by a reconcile differs from a stored
CronJob only in container images: its identity (namespace, name, UID),
labels, annotations, all other CronJob fields, and the name and all
non-image fields of each container are those of the original. -/
theorem only_images_modified (env : Env) (d : Deployment) (st : St)
    (cj' : CronJob) (h : Op.updateCronJob cj' ∈ (Reconcile env d st).1) :
    ∃ cj, cj ∈ st.cronjobs ∧ cj'.ns = cj.ns ∧ cj'.name = cj.name ∧
      cj'.uid = cj.uid ∧ cj'.labels = cj.labels ∧
      cj'.annotations = cj.annotations ∧ cj'.rest = cj.rest ∧
      cj'.containers.map (fun c => (c.name, c.rest))
        = cj.containers.map (fun c => (c.name, c.rest)) := by
  have h' : Op.updateCronJob cj'
      ∈ (reconcileLoop env d (findCronJobsForDeployment st.cronjobs d) st).1 := by
    rcases List.mem_cons.mp h with he | h'
    · exact Op.noConfusion he
    · exact h'
  obtain ⟨cj, hmem, _, rfl⟩ := reconcileLoop_update_ops env d _ st cj' h'
  have hmem' : cj ∈ st.cronjobs := by
    rw [findCronJobs_eq_filter] at hmem
    exact List.mem_of_mem_filter hmem
  obtain ⟨f1, f2, f3, f4, f5, f6, f7⟩ := syncCronJob_frame d cj
  exact ⟨cj, hmem', f1, f2, f3, f4, f5, f6, f7⟩

theorem only_images_modified_witness :
    ∃ cj, cj ∈ [CronJob.mk "ns" "cj" "u" [("managed-by-deployment", "dep")] []
        [Container.mk "a" "i1" "x"] "z"] ∧
      (CronJob.mk "ns" "cj" "u" [("managed-by-deployment", "dep")] []
        [Container.mk "a" "i2" "x"] "z").ns = cj.ns ∧
      (CronJob.mk "ns" "cj" "u" [("managed-by-deployment", "dep")] []
        [Container.mk "a" "i2" "x"] "z").name = cj.name ∧
      (CronJob.mk "ns" "cj" "u" [("managed-by-deployment", "dep")] []
        [Container.mk "a" "i2" "x"] "z").uid = cj.uid ∧
      (CronJob.mk "ns" "cj" "u" [("managed-by-deployment", "dep")] []
        [Container.mk "a" "i2" "x"] "z").labels = cj.labels ∧
      (CronJob.mk "ns" "cj" "u" [("managed-by-deployment", "dep")] []
        [Container.mk "a" "i2" "x"] "z").annotations = cj.annotations ∧
      (CronJob.mk "ns" "cj" "u" [("managed-by-deployment", "dep")] []
        [Container.mk "a" "i2" "x"] "z").rest = cj.rest ∧
      (CronJob.mk "ns" "cj" "u" [("managed-by-deployment", "dep")] []
        [Container.mk "a" "i2" "x"] "z").containers.map (fun c => (c.name, c.rest))
        = cj.containers.map (fun c => (c.name, c.rest)) :=
  only_images_modified Env.allOk (Deployment.mk "ns" "dep" [Container.mk "a" "i2" ""])
    (St.mk [CronJob.mk "ns" "cj" "u" [("managed-by-deployment", "dep")] []
      [Container.mk "a" "i1" "x"] "z"] [])
    (CronJob.mk "ns" "cj" "u" [("managed-by-deployment", "dep")] []
      [Container.mk "a" "i2" "x"] "z")
    (by decide)

/-! ### C9: invalidation only after a successful persist -/

theorem deletesAfterPersist_append (env : Env) (seen : List CronJob)
    (l1 l2 : List Op) :
    deletesAfterPersist env seen (l1 ++ l2)
      = (deletesAfterPersist env seen l1 &&
         deletesAfterPersist env (seenAfter env seen l1) l2) := by
  induction l1 generalizing seen with
  | nil => simp [deletesAfterPersist, seenAfter]
  | cons op rest ih =>
    cases op with
    | incCounter c n m => simpa [deletesAfterPersist, seenAfter] using ih seen
    | updateCronJob cj => simpa [deletesAfterPersist, seenAfter] using ih _
    | deleteJob j =>
      simp [deletesAfterPersist, seenAfter, ih seen, Bool.and_assoc]
    | deleteAllPods n m => simpa [deletesAfterPersist, seenAfter] using ih seen
    | event s r a => simpa [deletesAfterPersist, seenAfter] using ih seen

theorem seenAfter_of_no_update (env : Env) (seen : List CronJob) (l : List Op)
    (h : ∀ x, Op.updateCronJob x ∉ l) : seenAfter env seen l = seen := by
  induction l generalizing seen with
  | nil => rfl
  | cons op rest ih =>
    have hrest : ∀ x, Op.updateCronJob x ∉ rest := fun x hx =>
      h x (List.mem_cons_of_mem op hx)
    cases op with
    | incCounter c n m => exact ih seen hrest
    | updateCronJob cj => exact absurd (List.mem_cons_self _ _) (h cj)
    | deleteJob j => exact ih seen hrest
    | deleteAllPods n m => exact ih seen hrest
    | event s r a => exact ih seen hrest

/-- A `JobInvalidator` trace run for a CronJob already known to be
persisted satisfies the persist-before-delete check. -/
theorem deletesAfterPersist_deleteJobs (env : Env) (cj : CronJob)
    (jobs : List Job) (seen : List CronJob) (hseen : cj ∈ seen) :
    deletesAfterPersist env seen (deleteJobsForCronJob env cj jobs).1 = true := by
  induction jobs with
  | nil => rfl
  | cons job rest ih =>
    unfold deleteJobsForCronJob
    by_cases h1 : isOwnedByCronJob job cj
    · rw [if_pos h1]
      by_cases h2 : env.deleteJobOk job
      · rw [if_pos h2]
        by_cases h3 : env.deletePodsOk job
        · rw [if_pos h3]
          simp only [deletesAfterPersist, ih, Bool.and_true]
          exact List.any_eq_true.mpr ⟨cj, hseen, h1⟩
        · rw [if_neg h3]
          simp only [deletesAfterPersist, Bool.and_true]
          exact List.any_eq_true.mpr ⟨cj, hseen, h1⟩
      · rw [if_neg h2]
        simp only [deletesAfterPersist, Bool.and_true]
        exact List.any_eq_true.mpr ⟨cj, hseen, h1⟩
    · rw [if_neg h1]
      exact ih

/-- Every loop trace passes the persist-before-delete check, from any
starting set of already-persisted CronJobs. -/
theorem reconcileLoop_deletesAfterPersist (env : Env) (d : Deployment)
    (l : List CronJob) (st : St) (seen : List CronJob) :
    deletesAfterPersist env seen (reconcileLoop env d l st).1 = true := by
  induction l generalizing st seen with
  | nil => rfl
  | cons cj rest ih =>
    cases h1 : (syncCronJob d cj).2 with
    | false =>
      rw [reconcileLoop_cons_skip _ _ _ _ _ h1]
      exact ih st seen
    | true =>
      cases h2 : env.updateOk (syncCronJob d cj).1 with
      | false => rw [reconcileLoop_cons_fail _ _ _ _ _ h1 h2]; rfl
      | true =>
        have hseenhead : seenAfter env seen
            [Op.updateCronJob (syncCronJob d cj).1,
             Op.incCounter "cronjob_image_sync_cronjobs_updated_total" cj.ns cj.name,
             Op.event .normal "CronJobUpdated" cj.name]
            = (syncCronJob d cj).1 :: seen := by
          simp [seenAfter, h2]
        have hhead : deletesAfterPersist env seen
            [Op.updateCronJob (syncCronJob d cj).1,
             Op.incCounter "cronjob_image_sync_cronjobs_updated_total" cj.ns cj.name,
             Op.event .normal "CronJobUpdated" cj.name] = true := by
          simp [deletesAfterPersist]
        have hdops := deletesAfterPersist_deleteJobs env (syncCronJob d cj).1
          st.jobs ((syncCronJob d cj).1 :: seen) (List.mem_cons_self _ _)
        have hseendops : seenAfter env ((syncCronJob d cj).1 :: seen)
            (deleteJobsForCronJob env (syncCronJob d cj).1 st.jobs).1
            = (syncCronJob d cj).1 :: seen :=
          seenAfter_of_no_update env _ _ fun x => deleteJobs_no_update env _ _ x
        cases h3 : (deleteJobsForCronJob env (syncCronJob d cj).1 st.jobs).2.2 with
        | true =>
          rw [reconcileLoop_cons_ok_err _ _ _ _ _ h1 h2 h3]
          simp only [List.append_assoc]
          rw [deletesAfterPersist_append, hhead, hseenhead,
            deletesAfterPersist_append, hdops, hseendops]
          simp [deletesAfterPersist, errorInc]
        | false =>
          rw [reconcileLoop_cons_ok_noerr _ _ _ _ _ h1 h2 h3]
          simp only [List.append_assoc]
          rw [deletesAfterPersist_append, hhead, hseenhead,
            deletesAfterPersist_append, hdops, hseendops,
            deletesAfterPersist_append]
          simp only [deletesAfterPersist, seenAfter, Bool.true_and]
          exact ih _ _

/-- A CronJob whose sync reports no mutation contributes nothing to a
pass: it can be removed from the matched list without changing anything. -/
theorem reconcileLoop_skip_unmutated (env : Env) (d : Deployment) (cj : CronJob)
    (h : (syncCronJob d cj).2 = false) (pre : List CronJob) :
    ∀ (rest : List CronJob) (st : St),
      reconcileLoop env d (pre ++ cj :: rest) st
        = reconcileLoop env d (pre ++ rest) st := by
  induction pre with
  | nil =>
    intro rest st
    exact reconcileLoop_cons_skip env d cj rest st h
  | cons p pre ih =>
    intro rest st
    show reconcileLoop env d (p :: (pre ++ cj :: rest)) st
      = reconcileLoop env d (p :: (pre ++ rest)) st
    cases h1 : (syncCronJob d p).2 with
    | false =>
      rw [reconcileLoop_cons_skip _ _ _ _ _ h1,
        reconcileLoop_cons_skip _ _ _ _ _ h1]
      exact ih rest st
    | true =>
      cases h2 : env.updateOk (syncCronJob d p).1 with
      | false =>
        rw [reconcileLoop_cons_fail _ _ _ _ _ h1 h2,
          reconcileLoop_cons_fail _ _ _ _ _ h1 h2]
      | true =>
        cases h3 : (deleteJobsForCronJob env (syncCronJob d p).1 st.jobs).2.2 with
        | true =>
          rw [reconcileLoop_cons_ok_err _ _ _ _ _ h1 h2 h3,
            reconcileLoop_cons_ok_err _ _ _ _ _ h1 h2 h3]
        | false =>
          rw [reconcileLoop_cons_ok_noerr _ _ _ _ _ h1 h2 h3,
            reconcileLoop_cons_ok_noerr _ _ _ _ _ h1 h2 h3]
          rw [ih]

/-- C9: in one reconcile pass, every Job deletion happens only after a
successful persist, earlier in the trace, of a CronJob owning that Job;
and a matched CronJob with `mutated = false` contributes no persist, no
deletion and no notification at all — dropping it from the matched list
leaves the pass unchanged. -/
theorem invalidation_after_persist (env : Env) (d : Deployment) (st : St) :
    deletesAfterPersist env [] (Reconcile env d st).1 = true ∧
    (∀ (pre : List CronJob) (cj : CronJob) (rest : List CronJob) (st' : St),
      (syncCronJob d cj).2 = false →
      reconcileLoop env d (pre ++ cj :: rest) st'
        = reconcileLoop env d (pre ++ rest) st') := by
  constructor
  · show deletesAfterPersist env []
      (Op.incCounter "cronjob_image_sync_reconciles_total" d.ns d.name
        :: (reconcileLoop env d (findCronJobsForDeployment st.cronjobs d) st).1) = true
    exact reconcileLoop_deletesAfterPersist env d _ st []
  · intro pre cj rest st' h
    exact reconcileLoop_skip_unmutated env d cj h pre rest st'

theorem invalidation_after_persist_witness :
    reconcileLoop Env.allOk (Deployment.mk "ns" "dep" [Container.mk "a" "i1" ""])
      ([] ++ CronJob.mk "ns" "cj" "u" [] [] [Container.mk "a" "i1" ""] "" :: [])
      (St.mk [CronJob.mk "ns" "cj" "u" [] [] [Container.mk "a" "i1" ""] ""] [])
    = reconcileLoop Env.allOk (Deployment.mk "ns" "dep" [Container.mk "a" "i1" ""])
      ([] ++ [])
      (St.mk [CronJob.mk "ns" "cj" "u" [] [] [Container.mk "a" "i1" ""] ""] []) := by
  have h := invalidation_after_persist Env.allOk
    (Deployment.mk "ns" "dep" [Container.mk "a" "i1" ""])
    (St.mk [CronJob.mk "ns" "cj" "u" [] [] [Container.mk "a" "i1" ""] ""] [])
  exact h.2 [] (CronJob.mk "ns" "cj" "u" [] [] [Container.mk "a" "i1" ""] "") []
    (St.mk [CronJob.mk "ns" "cj" "u" [] [] [Container.mk "a" "i1" ""] ""] [])
    (by decide)

/-! ### C6: a failed persist aborts the pass -/

/-- Processing a matched list that splits as `l1 ++ l2`, when `l1`
processes without error, is the `l1` pass followed by the `l2` pass from
the intermediate store. -/
theorem reconcileLoop_append_ok (env : Env) (d : Deployment)
    (l1 l2 : List CronJob) (st : St)
    (h : (reconcileLoop env d l1 st).2.2 = false) :
    reconcileLoop env d (l1 ++ l2) st
      = ((reconcileLoop env d l1 st).1 ++
          (reconcileLoop env d l2 (reconcileLoop env d l1 st).2.1).1,
         (reconcileLoop env d l2 (reconcileLoop env d l1 st).2.1).2.1,
         (reconcileLoop env d l2 (reconcileLoop env d l1 st).2.1).2.2) := by
  induction l1 generalizing st with
  | nil => rfl
  | cons cj rest ih =>
    show reconcileLoop env d (cj :: (rest ++ l2)) st = _
    cases h1 : (syncCronJob d cj).2 with
    | false =>
      rw [reconcileLoop_cons_skip _ _ _ _ _ h1] at h ⊢
      rw [reconcileLoop_cons_skip _ _ _ _ _ h1]
      exact ih st h
    | true =>
      cases h2 : env.updateOk (syncCronJob d cj).1 with
      | false =>
        rw [reconcileLoop_cons_fail _ _ _ _ _ h1 h2] at h
        cases h
      | true =>
        cases h3 : (deleteJobsForCronJob env (syncCronJob d cj).1 st.jobs).2.2 with
        | true =>
          rw [reconcileLoop_cons_ok_err _ _ _ _ _ h1 h2 h3] at h
          cases h
        | false =>
          rw [reconcileLoop_cons_ok_noerr _ _ _ _ _ h1 h2 h3] at h
          rw [reconcileLoop_cons_ok_noerr _ _ _ _ _ h1 h2 h3,
            reconcileLoop_cons_ok_noerr _ _ _ _ _ h1 h2 h3]
          rw [ih _ h]
          simp [List.append_assoc]

/-- Ops emitted by `deleteJobsForCronJob` are never warning events and
never error-counter increments. -/
theorem deleteJobs_ops_benign (env : Env) (cj : CronJob) (jobs : List Job)
    (d : Deployment) :
    ∀ op ∈ (deleteJobsForCronJob env cj jobs).1,
      isWarningEvent op = false ∧ (op == errorInc d) = false := by
  intro op hop
  rcases deleteJobs_ops_mem env cj jobs _ hop with ⟨j, hj, _⟩ | ⟨n, hn⟩ | hc | ⟨n, hn⟩
  · subst hj
    exact ⟨rfl, by simp [errorInc]⟩
  · subst hn
    exact ⟨rfl, by simp [errorInc]⟩
  · subst hc
    exact ⟨rfl, by simp [errorInc]⟩
  · subst hn
    exact ⟨rfl, by simp [errorInc]⟩

/-- A loop pass that completes without error emits no warning event and no
error-counter increment. -/
theorem reconcileLoop_ok_no_failure_ops (env : Env) (d : Deployment)
    (l : List CronJob) (st : St) (h : (reconcileLoop env d l st).2.2 = false) :
    ∀ op ∈ (reconcileLoop env d l st).1,
      isWarningEvent op = false ∧ (op == errorInc d) = false := by
  induction l generalizing st with
  | nil => intro op hop; cases hop
  | cons cj rest ih =>
    cases h1 : (syncCronJob d cj).2 with
    | false =>
      rw [reconcileLoop_cons_skip _ _ _ _ _ h1] at h ⊢
      exact ih st h
    | true =>
      cases h2 : env.updateOk (syncCronJob d cj).1 with
      | false =>
        rw [reconcileLoop_cons_fail _ _ _ _ _ h1 h2] at h
        cases h
      | true =>
        cases h3 : (deleteJobsForCronJob env (syncCronJob d cj).1 st.jobs).2.2 with
        | true =>
          rw [reconcileLoop_cons_ok_err _ _ _ _ _ h1 h2 h3] at h
          cases h
        | false =>
          rw [reconcileLoop_cons_ok_noerr _ _ _ _ _ h1 h2 h3] at h ⊢
          intro op hop
          simp only [List.append_assoc, List.mem_append, List.mem_cons,
            List.not_mem_nil, or_false] at hop
          rcases hop with (hop | hop | hop) | hop | hop | hop
          · subst hop; exact ⟨rfl, by simp [errorInc]⟩
          · subst hop; exact ⟨rfl, by simp [errorInc]⟩
          · subst hop; exact ⟨rfl, by simp [errorInc]⟩
          · exact deleteJobs_ops_benign env _ _ d op hop
          · subst hop; exact ⟨rfl, by simp [errorInc]⟩
          · exact ih _ h op hop

/-- C6: when persisting the mutated CronJob `cj` fails (conflict), after an
error-free prefix `pre` of the matched list, the reconcile emits exactly
the prefix ops followed by the attempted write, one error-counter
increment and one warning event; the whole pass has exactly one
error-counter increment and one warning notification, performs no deletion
beyond those of the prefix (none for `cj`), processes no further
secondaries, and surfaces the error. -/
theorem conflict_abort (env : Env) (d : Deployment) (st : St)
    (pre rest : List CronJob) (cj : CronJob)
    (hm : findCronJobsForDeployment st.cronjobs d = pre ++ cj :: rest)
    (hpre : (reconcileLoop env d pre st).2.2 = false)
    (hupd : (syncCronJob d cj).2 = true)
    (hfail : env.updateOk (syncCronJob d cj).1 = false) :
    Reconcile env d st
      = (Op.incCounter "cronjob_image_sync_reconciles_total" d.ns d.name ::
          ((reconcileLoop env d pre st).1 ++
           [Op.updateCronJob (syncCronJob d cj).1, errorInc d,
            Op.event .warning "UpdateFailed" cj.name]),
         (reconcileLoop env d pre st).2.1, true) ∧
    (Reconcile env d st).1.countP (fun op => op == errorInc d) = 1 ∧
    (Reconcile env d st).1.countP isWarningEvent = 1 ∧
    (∀ j, Op.deleteJob j ∈ (Reconcile env d st).1 →
      Op.deleteJob j ∈ (reconcileLoop env d pre st).1) := by
  have hsplit : reconcileLoop env d (pre ++ cj :: rest) st
      = ((reconcileLoop env d pre st).1 ++
          [Op.updateCronJob (syncCronJob d cj).1, errorInc d,
           Op.event .warning "UpdateFailed" cj.name],
         (reconcileLoop env d pre st).2.1, true) := by
    rw [reconcileLoop_append_ok env d pre (cj :: rest) st hpre,
      reconcileLoop_cons_fail env d cj rest _ hupd hfail]
  have hA : Reconcile env d st
      = (Op.incCounter "cronjob_image_sync_reconciles_total" d.ns d.name ::
          ((reconcileLoop env d pre st).1 ++
           [Op.updateCronJob (syncCronJob d cj).1, errorInc d,
            Op.event .warning "UpdateFailed" cj.name]),
         (reconcileLoop env d pre st).2.1, true) := by
    show (Op.incCounter "cronjob_image_sync_reconciles_total" d.ns d.name ::
        (reconcileLoop env d (findCronJobsForDeployment st.cronjobs d) st).1,
      (reconcileLoop env d (findCronJobsForDeployment st.cronjobs d) st).2.1,
      (reconcileLoop env d (findCronJobsForDeployment st.cronjobs d) st).2.2) = _
    rw [hm, hsplit]
  have hpre0 : ∀ op ∈ (reconcileLoop env d pre st).1,
      isWarningEvent op = false ∧ (op == errorInc d) = false :=
    reconcileLoop_ok_no_failure_ops env d pre st hpre
  have hcount_err : (reconcileLoop env d pre st).1.countP
      (fun op => op == errorInc d) = 0 :=
    List.countP_eq_zero.mpr fun op hop => by simp [(hpre0 op hop).2]
  have hcount_warn : (reconcileLoop env d pre st).1.countP isWarningEvent = 0 :=
    List.countP_eq_zero.mpr fun op hop => by simp [(hpre0 op hop).1]
  refine ⟨hA, ?_, ?_, ?_⟩
  · rw [hA]
    simp only [List.countP_cons, List.countP_append, hcount_err, List.countP_nil]
    simp [errorInc]
  · rw [hA]
    simp only [List.countP_cons, List.countP_append, hcount_warn, List.countP_nil]
    simp [isWarningEvent, errorInc]
  · intro j hj
    rw [hA] at hj
    simp only [List.mem_cons, List.mem_append, List.not_mem_nil, or_false] at hj
    rcases hj with hj | hj | hj | hj | hj
    · exact Op.noConfusion hj
    · exact hj
    · exact Op.noConfusion hj
    · simp [errorInc] at hj
    · exact Op.noConfusion hj

theorem conflict_abort_witness :
    (Reconcile (Env.mk (fun _ => false) (fun _ => true) (fun _ => true))
      (Deployment.mk "ns" "dep" [Container.mk "a" "i2" ""])
      (St.mk [CronJob.mk "ns" "cj" "u" [("managed-by-deployment", "dep")] []
        [Container.mk "a" "i1" ""] ""] [])).1.countP
      (fun op => op == errorInc (Deployment.mk "ns" "dep" [Container.mk "a" "i2" ""])) = 1 ∧
    (Reconcile (Env.mk (fun _ => false) (fun _ => true) (fun _ => true))
      (Deployment.mk "ns" "dep" [Container.mk "a" "i2" ""])
      (St.mk [CronJob.mk "ns" "cj" "u" [("managed-by-deployment", "dep")] []
        [Container.mk "a" "i1" ""] ""] [])).1.countP isWarningEvent = 1 := by
  have h := conflict_abort (Env.mk (fun _ => false) (fun _ => true) (fun _ => true))
    (Deployment.mk "ns" "dep" [Container.mk "a" "i2" ""])
    (St.mk [CronJob.mk "ns" "cj" "u" [("managed-by-deployment", "dep")] []
      [Container.mk "a" "i1" ""] ""] [])
    [] []
    (CronJob.mk "ns" "cj" "u" [("managed-by-deployment", "dep")] []
      [Container.mk "a" "i1" ""] "")
    (by decide) rfl (by decide) rfl
  exact ⟨h.2.1, h.2.2.1⟩

/-! ### C8: accounting of deleted Jobs -/

/-- C8 (amended): for every Job that `deleteJobsForCronJob` deletes AND
whose follow-up pod sweep succeeds — i.e. every deletion that reaches the
accounting statements in the source — the jobs-deleted counter keyed by
(S.namespace, S.name) is bumped exactly once and exactly one
normal-severity `JobDeleted` event is emitted for that Job: in any trace,
counter increments equal accounted deletions, and for every Job name the
`JobDeleted` events for that name equal the accounted deletions of Jobs
with that name.  (A Job deleted whose pod sweep then fails gets no counter
increment and no event; see the counterexample.) -/
theorem jobs_deleted_accounting (env : Env) (cj : CronJob) (jobs : List Job) :
    (deleteJobsForCronJob env cj jobs).1.countP
        (fun op => op == jobsDeletedInc cj)
      = (deleteJobsForCronJob env cj jobs).1.countP (isAccountedDelete env) ∧
    ∀ n, (deleteJobsForCronJob env cj jobs).1.countP (isJobDeletedEvent n)
      = (deleteJobsForCronJob env cj jobs).1.countP
          (isAccountedDeleteNamed env n) := by
  induction jobs with
  | nil => exact ⟨rfl, fun n => rfl⟩
  | cons job rest ih =>
    unfold deleteJobsForCronJob
    by_cases h1 : isOwnedByCronJob job cj
    · rw [if_pos h1]
      by_cases h2 : env.deleteJobOk job
      · rw [if_pos h2]
        by_cases h3 : env.deletePodsOk job
        · rw [if_pos h3]
          constructor
          · simp only [List.countP_cons, ih.1]
            simp [jobsDeletedInc, isAccountedDelete, isJobDeletedEvent, h2, h3]
          · intro n
            simp only [List.countP_cons, ih.2 n]
            cases hn : job.name == n with
            | false =>
              simp [jobsDeletedInc, isAccountedDelete, isAccountedDeleteNamed,
                isJobDeletedEvent, h2, h3, hn]
            | true =>
              simp [jobsDeletedInc, isAccountedDelete, isAccountedDeleteNamed,
                isJobDeletedEvent, h2, h3, hn]
        · rw [if_neg h3]
          have h3f : env.deletePodsOk job = false := by
            exact Bool.not_eq_true _ ▸ eq_false_of_ne_true h3
          constructor
          · simp [List.countP_cons, jobsDeletedInc, isAccountedDelete, h3f]
          · intro n
            simp [List.countP_cons, isJobDeletedEvent, isAccountedDeleteNamed, h3f]
      · rw [if_neg h2]
        have h2f : env.deleteJobOk job = false := eq_false_of_ne_true h2
        constructor
        · simp [List.countP_cons, jobsDeletedInc, isAccountedDelete, h2f]
        · intro n
          simp [List.countP_cons, isJobDeletedEvent, isAccountedDeleteNamed, h2f]
    · rw [if_neg h1]
      exact ih

/-- C8 as literally stated is false: with a pod sweep that fails, the Job
is deleted (the delete call succeeds and the Job is gone from the
surviving store), yet the jobs-deleted counter is never incremented and no
`JobDeleted` event is emitted, because the source returns on the
`DeleteAllOf` error before the accounting statements. -/
theorem jobs_deleted_accounting_counterexample :
    Op.deleteJob (Job.mk "ns" "j1"
        [OwnerReference.mk "batch/v1" "CronJob" "cj" "u1" true false])
      ∈ (deleteJobsForCronJob
          (Env.mk (fun _ => true) (fun _ => true) (fun _ => false))
          (CronJob.mk "ns" "cj" "u1" [] [] [] "")
          [Job.mk "ns" "j1"
            [OwnerReference.mk "batch/v1" "CronJob" "cj" "u1" true false]]).1 ∧
    (Env.mk (fun _ => true) (fun _ => true) (fun _ => false)).deleteJobOk
      (Job.mk "ns" "j1"
        [OwnerReference.mk "batch/v1" "CronJob" "cj" "u1" true false]) = true ∧
    (deleteJobsForCronJob
        (Env.mk (fun _ => true) (fun _ => true) (fun _ => false))
        (CronJob.mk "ns" "cj" "u1" [] [] [] "")
        [Job.mk "ns" "j1"
          [OwnerReference.mk "batch/v1" "CronJob" "cj" "u1" true false]]).2.1 = [] ∧
    (deleteJobsForCronJob
        (Env.mk (fun _ => true) (fun _ => true) (fun _ => false))
        (CronJob.mk "ns" "cj" "u1" [] [] [] "")
        [Job.mk "ns" "j1"
          [OwnerReference.mk "batch/v1" "CronJob" "cj" "u1" true false]]).1.countP
      (fun op => op == jobsDeletedInc (CronJob.mk "ns" "cj" "u1" [] [] [] "")) = 0 ∧
    (deleteJobsForCronJob
        (Env.mk (fun _ => true) (fun _ => true) (fun _ => false))
        (CronJob.mk "ns" "cj" "u1" [] [] [] "")
        [Job.mk "ns" "j1"
          [OwnerReference.mk "batch/v1" "CronJob" "cj" "u1" true false]]).1.countP
      (isJobDeletedEvent "j1") = 0 := by
  refine ⟨?_, rfl, rfl, rfl, rfl⟩
  decide

end CronJobController
